import Mathlib

/-!
Verification of the eyemob heatmap engine.

This file gives a shallow embedding, in Lean, of the `HeatmapRenderer` class
found in `src/utils/eyeTracker.ts` of the eyemob repository: the density
field, the kernel-splat ingestion (`addGazePoint`), `clear`, `resize`,
construction, the color ramp (`getHeatmapColor`) and the per-frame
normalization and color mapping performed by `render`.  JavaScript numbers
are modelled as real numbers; the field `heatmapData[py][px]` is modelled as
a total function `ℤ → ℤ → ℝ` whose meaningful entries are the in-bounds
cells.  The double `for` loop of `addGazePoint` is modelled as a left fold
over the explicit list of kernel offsets, in the source's iteration order.
`render` only reads the field (the source method writes pixels to a canvas
context, never to `heatmapData`), so it is embedded as a pure function from
the renderer state to the bitmap it composites; the trailing cosmetic canvas
blur (`applyBlur`) is outside the model.
-/

namespace Eyemob

/-- A gaze sample, per `GazePoint` in `src/types/eyeTracking.ts`:
viewport pixel coordinates, a confidence score and a timestamp. -/
structure GazePoint where
  x : ℝ
  y : ℝ
  confidence : ℝ
  timestamp : ℝ

/-- An RGBA color with real-valued channels, as stored in the
`colorStops` configuration of `HeatmapRenderer`. -/
structure RGBA where
  r : ℝ
  g : ℝ
  b : ℝ
  a : ℝ

/-- An integer RGBA pixel as produced by `getHeatmapColor`
(`Math.round`ed channels, alpha scaled to 0..255). -/
structure PixelColor where
  r : ℤ
  g : ℤ
  b : ℤ
  a : ℤ
  deriving DecidableEq

/-- One control point of the color ramp (`colorStops` entries). -/
structure ColorStop where
  value : ℝ
  color : RGBA

/-- The state of a `HeatmapRenderer`: field dimensions, the density field
`heatmapData` (row-major: `data py px`), and the visibility flag.  The
canvas and 2D context are not part of the field model. -/
structure Heatmap where
  width : ℤ
  height : ℤ
  data : ℤ → ℤ → ℝ
  isVisible : Bool

/-- The canvas handed to the constructor: its pixel dimensions and whether
`getContext('2d')` succeeds. -/
structure Canvas where
  width : ℤ
  height : ℤ
  ctxAvailable : Bool

/-- The fixed kernel radius: `private readonly radius = 30`. -/
def radius : ℝ := 30

/-- The fixed saturation cap: `private readonly maxIntensity = 100`. -/
def maxIntensity : ℝ := 100

/-- The fixed 6-stop color ramp `colorStops` of `HeatmapRenderer`. -/
noncomputable def colorStops : List ColorStop :=
  [⟨0, ⟨0, 0, 0, 0⟩⟩,
   ⟨0.2, ⟨0, 0, 255, 0.3⟩⟩,
   ⟨0.4, ⟨0, 255, 0, 0.5⟩⟩,
   ⟨0.6, ⟨255, 255, 0, 0.7⟩⟩,
   ⟨0.8, ⟨255, 165, 0, 0.8⟩⟩,
   ⟨1, ⟨255, 0, 0, 0.9⟩⟩]

/-- Constructor of `HeatmapRenderer`: throws if no canvas is supplied or if
the 2D context cannot be obtained; otherwise takes the canvas dimensions as
field dimensions and initializes every cell of `heatmapData` to 0
(`initializeHeatmapData`).  No validation of the dimensions is performed. -/
noncomputable def construct (canvas : Option Canvas) : Except String Heatmap :=
  match canvas with
  | none => Except.error "Canvas element is required for HeatmapRenderer"
  | some c =>
      if c.ctxAvailable = false then
        Except.error "Failed to get 2D context from canvas. Canvas may not be properly initialized."
      else
        Except.ok { width := c.width, height := c.height, data := fun _ _ => 0, isVisible := true }

/-- The offsets `(dx, dy)` enumerated by the double loop of `addGazePoint`:
`dy` in the outer loop and `dx` in the inner loop, each running from
`-radius` to `radius` inclusive (2 · 30 + 1 = 61 values each). -/
def kernelOffsets : List (ℤ × ℤ) :=
  (List.range 61).flatMap
    (fun (j : ℕ) => (List.range 61).map (fun (i : ℕ) => ((i : ℤ) - 30, (j : ℤ) - 30)))

/-- Overwrite the single cell `heatmapData[py][px]` of the field with the
value `v`. -/
noncomputable def writeCell (f : ℤ → ℤ → ℝ) (py px : ℤ) (v : ℝ) : ℤ → ℤ → ℝ :=
  fun b a => if b = py ∧ a = px then v else f b a

/-- The body of the double loop of `addGazePoint` for one offset
`o = (dx, dy)` around center `(x, y)`: if the absolute cell
`(px, py) = (x + dx, y + dy)` is in-bounds and the Euclidean distance
`distance = sqrt(dx*dx + dy*dy)` of the offset is at most `radius`, the
cell is overwritten with `min maxIntensity (cell + intensity * falloff)`
where `falloff = exp(-(distance * distance) / (2 * (radius/3) * (radius/3)))`;
otherwise the field is left as is. -/
noncomputable def kernelStep (w h x y : ℤ) (intensity : ℝ) (f : ℤ → ℤ → ℝ) (o : ℤ × ℤ) :
    ℤ → ℤ → ℝ :=
  if 0 ≤ x + o.1 ∧ x + o.1 < w ∧ 0 ≤ y + o.2 ∧ y + o.2 < h then
    if Real.sqrt ((o.1 * o.1 + o.2 * o.2 : ℤ) : ℝ) ≤ radius then
      writeCell f (y + o.2) (x + o.1)
        (min maxIntensity (f (y + o.2) (x + o.1) +
          intensity * Real.exp (-(Real.sqrt ((o.1 * o.1 + o.2 * o.2 : ℤ) : ℝ) *
              Real.sqrt ((o.1 * o.1 + o.2 * o.2 : ℤ) : ℝ)) /
            (2 * (radius / 3) * (radius / 3)))))
    else f
  else f

/-- The method `addGazePoint(gazePoint)`: reject when
`confidence < 0.3`; floor the sample position to integer pixels
(`Math.floor`); reject when the floored position is outside
`[0, width) × [0, height)`; otherwise splat the kernel with
`intensity = confidence * 2` over all offsets. -/
noncomputable def addGazePoint (hm : Heatmap) (p : GazePoint) : Heatmap :=
  if p.confidence < 0.3 then hm
  else if ⌊p.x⌋ < 0 ∨ hm.width ≤ ⌊p.x⌋ ∨ ⌊p.y⌋ < 0 ∨ hm.height ≤ ⌊p.y⌋ then hm
  else
    { hm with
      data := kernelOffsets.foldl
        (kernelStep hm.width hm.height ⌊p.x⌋ ⌊p.y⌋ (p.confidence * 2)) hm.data }

/-- The method `clear()`: re-runs `initializeHeatmapData`, resetting every
cell to 0 (the canvas dimensions, and hence the field dimensions, are
unchanged). -/
noncomputable def clear (hm : Heatmap) : Heatmap :=
  { hm with data := fun _ _ => 0 }

/-- The method `resize()`: adopts the new (window) dimensions and
reinitializes every cell to 0.  No validation of the dimensions is
performed. -/
noncomputable def resize (hm : Heatmap) (newWidth newHeight : ℤ) : Heatmap :=
  { width := newWidth, height := newHeight, data := fun _ _ => 0, isVisible := hm.isVisible }

/-- The method `setVisible(visible)` (field part: the flag only; the canvas
clearing it performs is outside the field model). -/
noncomputable def setVisible (hm : Heatmap) (visible : Bool) : Heatmap :=
  { hm with isVisible := visible }

/-- Channel interpolation of `getHeatmapColor` between two bracketing color
stops: `t = (value - current.value) / (next.value - current.value)`, each of
R, G, B interpolated and rounded independently, and alpha interpolated then
scaled by 255 and rounded. -/
noncomputable def interpolateStops (current next : ColorStop) (value : ℝ) : PixelColor :=
  ⟨round (current.color.r +
      (next.color.r - current.color.r) * ((value - current.value) / (next.value - current.value))),
   round (current.color.g +
      (next.color.g - current.color.g) * ((value - current.value) / (next.value - current.value))),
   round (current.color.b +
      (next.color.b - current.color.b) * ((value - current.value) / (next.value - current.value))),
   round ((current.color.a +
      (next.color.a - current.color.a) * ((value - current.value) / (next.value - current.value))) *
        255)⟩

/-- The fallback of `getHeatmapColor`: the last color stop of the ramp,
rounded, with alpha scaled by 255. -/
noncomputable def fallbackColor : PixelColor :=
  ⟨round (colorStops.getLastD ⟨0, ⟨0, 0, 0, 0⟩⟩).color.r,
   round (colorStops.getLastD ⟨0, ⟨0, 0, 0, 0⟩⟩).color.g,
   round (colorStops.getLastD ⟨0, ⟨0, 0, 0, 0⟩⟩).color.b,
   round ((colorStops.getLastD ⟨0, ⟨0, 0, 0, 0⟩⟩).color.a * 255)⟩

/-- The bracket search loop of `getHeatmapColor`: scan consecutive pairs of
color stops and interpolate in the first bracket `[current, next]` that
contains `value`; if no bracket matches, return the last stop's color. -/
noncomputable def findStop (value : ℝ) : List ColorStop → PixelColor
  | current :: next :: rest =>
      if current.value ≤ value ∧ value ≤ next.value then interpolateStops current next value
      else findStop value (next :: rest)
  | _ => fallbackColor

/-- The method `getHeatmapColor(value)`: exactly 0 maps to fully
transparent, otherwise the bracket search over `colorStops`. -/
noncomputable def getHeatmapColor (value : ℝ) : PixelColor :=
  if value = 0 then ⟨0, 0, 0, 0⟩ else findStop value colorStops

/-- The in-bounds cells of the field, in the row-major order scanned by
`render` (y outer, x inner). -/
noncomputable def cellList (hm : Heatmap) : List ℝ :=
  (List.range hm.height.toNat).flatMap
    (fun (y : ℕ) => (List.range hm.width.toNat).map (fun (x : ℕ) => hm.data (y : ℤ) (x : ℤ)))

/-- The normalization scan of `render`: `maxValue` starts at 0 and takes the
running maximum over every cell. -/
noncomputable def maxValue (hm : Heatmap) : ℝ :=
  (cellList hm).foldl max 0

/-- The method `render()`: when invisible, no new bitmap is composited
(`none`).  Otherwise the prior output is cleared; if `maxValue` is 0 the
method returns with the cleared (fully transparent) output and performs no
division; otherwise every in-bounds pixel receives
`getHeatmapColor (cell / maxValue)`.  The method never writes to
`heatmapData`, so the renderer state is unchanged by rendering. -/
noncomputable def render (hm : Heatmap) : Option (ℤ → ℤ → PixelColor) :=
  if hm.isVisible = false then none
  else
    some (fun b a =>
      if maxValue hm = 0 then ⟨0, 0, 0, 0⟩
      else if 0 ≤ b ∧ b < hm.height ∧ 0 ≤ a ∧ a < hm.width then
        getHeatmapColor (hm.data b a / maxValue hm)
      else ⟨0, 0, 0, 0⟩)

/-- An operation of the renderer's public mutating surface, as driven by the
session controller. -/
inductive HOp where
  | ingest (p : GazePoint)
  | doClear
  | doResize (newWidth newHeight : ℤ)
  | renderTick

/-- Apply one operation to the renderer state.  A render tick reads the
field but never mutates it. -/
noncomputable def applyOp (hm : Heatmap) : HOp → Heatmap
  | .ingest p => addGazePoint hm p
  | .doClear => clear hm
  | .doResize w h => resize hm w h
  | .renderTick => hm

/-- Run a sequence of operations from a starting state. -/
noncomputable def runOps (hm : Heatmap) (ops : List HOp) : Heatmap :=
  ops.foldl applyOp hm

/-- Rounding to the nearest integer, halves up: the semantics of the
JavaScript `Math.round` used by the specification's phrase "rounded integer
pixel position".  (The source code of `addGazePoint` uses `Math.floor`,
not `Math.round`; this definition exists to state that spec phrase.) -/
noncomputable def jsRound (v : ℝ) : ℤ := ⌊v + 1 / 2⌋

/-- The per-cell increment of one kernel splat at offset `(dx, dy)`:
`confidence · 2 · exp(-(dx² + dy²) / (2 · (radius/3) · (radius/3)))`.
Since `distance = sqrt(dx² + dy²)`, the exponent equals the source's
`-(distance * distance) / (2 * (radius / 3) * (radius / 3))`. -/
noncomputable def kernelDelta (confidence : ℝ) (dx dy : ℤ) : ℝ :=
  confidence * 2 *
    Real.exp (-((dx * dx + dy * dy : ℤ) : ℝ) / (2 * (radius / 3) * (radius / 3)))

/-! Basic lemmas about the kernel offset list and the splat fold. -/

/-- Membership in the offset list is exactly the box `[-30, 30]²`. -/
theorem mem_kernelOffsets {o : ℤ × ℤ} :
    o ∈ kernelOffsets ↔ -30 ≤ o.1 ∧ o.1 ≤ 30 ∧ -30 ≤ o.2 ∧ o.2 ≤ 30 := by
  obtain ⟨dx, dy⟩ := o
  constructor
  · intro h
    rw [kernelOffsets, List.mem_flatMap] at h
    obtain ⟨j, hj, hmem⟩ := h
    rw [List.mem_map] at hmem
    obtain ⟨i, hi, he⟩ := hmem
    rw [List.mem_range] at hj hi
    injection he with e1 e2
    constructor
    · omega
    constructor
    · omega
    constructor
    · omega
    · omega
  · rintro ⟨h1, h2, h3, h4⟩
    rw [kernelOffsets, List.mem_flatMap]
    refine ⟨(dy + 30).toNat, by rw [List.mem_range]; omega, ?_⟩
    rw [List.mem_map]
    refine ⟨(dx + 30).toNat, by rw [List.mem_range]; omega, ?_⟩
    have e1 : (((dx + 30).toNat : ℤ)) - 30 = dx := by omega
    have e2 : (((dy + 30).toNat : ℤ)) - 30 = dy := by omega
    rw [e1, e2]

/-- The offset list enumerates each offset exactly once. -/
theorem nodup_kernelOffsets : kernelOffsets.Nodup := by
  rw [kernelOffsets, List.nodup_flatMap]
  constructor
  · intro j _
    refine List.Nodup.map ?_ (List.nodup_range 61)
    intro i1 i2 h
    have e1 : (i1 : ℤ) - 30 = (i2 : ℤ) - 30 := congrArg Prod.fst h
    omega
  · refine List.Pairwise.imp ?_ (List.nodup_range 61)
    intro j1 j2 hne o ho1 ho2
    simp only [List.mem_map, List.mem_range] at ho1 ho2
    obtain ⟨i1, _, h1⟩ := ho1
    obtain ⟨i2, _, h2⟩ := ho2
    have e1 : (j1 : ℤ) - 30 = o.2 := congrArg Prod.snd h1
    have e2 : (j2 : ℤ) - 30 = o.2 := congrArg Prod.snd h2
    exact hne (by omega)

/-- Writing a cell and reading it back yields the written value. -/
theorem writeCell_self (f : ℤ → ℤ → ℝ) (py px : ℤ) (v : ℝ) :
    writeCell f py px v py px = v := by
  unfold writeCell
  rw [if_pos ⟨rfl, rfl⟩]

/-- Writing a cell leaves every other cell unchanged. -/
theorem writeCell_other (f : ℤ → ℤ → ℝ) (py px : ℤ) (v : ℝ) (b a : ℤ)
    (h : ¬ (b = py ∧ a = px)) : writeCell f py px v b a = f b a := by
  unfold writeCell
  rw [if_neg h]

/-- Applying one kernel step for an offset that does not address the cell
`(b, a)` leaves that cell unchanged. -/
theorem kernelStep_apply_other (w h x y : ℤ) (I : ℝ) (f : ℤ → ℤ → ℝ) (o : ℤ × ℤ) (b a : ℤ)
    (hne : o ≠ (a - x, b - y)) : kernelStep w h x y I f o b a = f b a := by
  unfold kernelStep
  by_cases hb : 0 ≤ x + o.1 ∧ x + o.1 < w ∧ 0 ≤ y + o.2 ∧ y + o.2 < h
  · rw [if_pos hb]
    by_cases hd : Real.sqrt ((o.1 * o.1 + o.2 * o.2 : ℤ) : ℝ) ≤ radius
    · rw [if_pos hd]
      apply writeCell_other
      rintro ⟨hb2, ha2⟩
      exact hne (Prod.ext (by omega) (by omega))
    · rw [if_neg hd]
  · rw [if_neg hb]

/-- Applying one kernel step for the offset addressing the cell `(b, a)`
computes the guarded saturating update of that cell. -/
theorem kernelStep_apply_self (w h x y : ℤ) (I : ℝ) (f : ℤ → ℤ → ℝ) (b a : ℤ) :
    kernelStep w h x y I f (a - x, b - y) b a =
      if (0 ≤ a ∧ a < w ∧ 0 ≤ b ∧ b < h) ∧
          Real.sqrt (((a - x) * (a - x) + (b - y) * (b - y) : ℤ) : ℝ) ≤ radius then
        min maxIntensity (f b a +
          I * Real.exp (-(Real.sqrt (((a - x) * (a - x) + (b - y) * (b - y) : ℤ) : ℝ) *
              Real.sqrt (((a - x) * (a - x) + (b - y) * (b - y) : ℤ) : ℝ)) /
            (2 * (radius / 3) * (radius / 3))))
      else f b a := by
  have hpx : x + (a - x) = a := by ring
  have hpy : y + (b - y) = b := by ring
  unfold kernelStep
  simp only [hpx, hpy]
  by_cases hb : 0 ≤ a ∧ a < w ∧ 0 ≤ b ∧ b < h
  · by_cases hd : Real.sqrt (((a - x) * (a - x) + (b - y) * (b - y) : ℤ) : ℝ) ≤ radius
    · rw [if_pos hb, if_pos hd, if_pos ⟨hb, hd⟩, writeCell_self]
    · rw [if_pos hb, if_neg hd, if_neg (fun hc => hd hc.2)]
  · rw [if_neg hb, if_neg (fun hc => hb hc.1)]

/-- Characterization of the whole splat fold over a duplicate-free list of
offsets: a cell is updated (once) exactly when its offset from the center is
in the list, it is in-bounds, and its distance is at most the radius;
otherwise it is unchanged. -/
theorem foldl_kernelStep_apply (L : List (ℤ × ℤ)) (hL : L.Nodup) (w h x y : ℤ) (I : ℝ)
    (f : ℤ → ℤ → ℝ) (b a : ℤ) :
    L.foldl (kernelStep w h x y I) f b a =
      if (a - x, b - y) ∈ L ∧ (0 ≤ a ∧ a < w ∧ 0 ≤ b ∧ b < h) ∧
          Real.sqrt (((a - x) * (a - x) + (b - y) * (b - y) : ℤ) : ℝ) ≤ radius then
        min maxIntensity (f b a +
          I * Real.exp (-(Real.sqrt (((a - x) * (a - x) + (b - y) * (b - y) : ℤ) : ℝ) *
              Real.sqrt (((a - x) * (a - x) + (b - y) * (b - y) : ℤ) : ℝ)) /
            (2 * (radius / 3) * (radius / 3))))
      else f b a := by
  induction L generalizing f with
  | nil => simp
  | cons o L ih =>
    rcases List.nodup_cons.mp hL with ⟨hnm, hnd⟩
    rw [List.foldl_cons, ih hnd]
    by_cases ho : o = (a - x, b - y)
    · subst ho
      rw [if_neg (by tauto), kernelStep_apply_self]
      by_cases hcond : (0 ≤ a ∧ a < w ∧ 0 ≤ b ∧ b < h) ∧
          Real.sqrt (((a - x) * (a - x) + (b - y) * (b - y) : ℤ) : ℝ) ≤ radius
      · rw [if_pos hcond, if_pos ⟨List.mem_cons_self _ _, hcond⟩]
      · rw [if_neg hcond, if_neg (by tauto)]
    · have hstep : kernelStep w h x y I f o b a = f b a :=
        kernelStep_apply_other w h x y I f o b a ho
      rw [hstep]
      have hmem : ((a - x, b - y) ∈ o :: L) ↔ ((a - x, b - y) ∈ L) := by
        simp only [List.mem_cons]
        constructor
        · rintro (h | h)
          · exact absurd h.symm ho
          · exact h
        · exact Or.inr
      by_cases hc : ((a - x, b - y) ∈ L) ∧ (0 ≤ a ∧ a < w ∧ 0 ≤ b ∧ b < h) ∧
          Real.sqrt (((a - x) * (a - x) + (b - y) * (b - y) : ℤ) : ℝ) ≤ radius
      · rw [if_pos hc, if_pos ⟨hmem.mpr hc.1, hc.2⟩]
      · rw [if_neg hc, if_neg (by rw [hmem]; exact hc)]

/-! Lemmas about `addGazePoint`. -/

/-- A sample below the confidence threshold is rejected: the state is
returned unchanged. -/
theorem addGazePoint_low_confidence (hm : Heatmap) (p : GazePoint)
    (h : p.confidence < 0.3) : addGazePoint hm p = hm := by
  unfold addGazePoint
  rw [if_pos h]

/-- A sample whose floored position is out of bounds is rejected: the state
is returned unchanged. -/
theorem addGazePoint_out_of_bounds (hm : Heatmap) (p : GazePoint)
    (h : ⌊p.x⌋ < 0 ∨ hm.width ≤ ⌊p.x⌋ ∨ ⌊p.y⌋ < 0 ∨ hm.height ≤ ⌊p.y⌋) :
    addGazePoint hm p = hm := by
  unfold addGazePoint
  by_cases hc : p.confidence < 0.3
  · rw [if_pos hc]
  · rw [if_neg hc, if_pos h]

/-- Ingestion never changes the field dimensions. -/
theorem addGazePoint_width (hm : Heatmap) (p : GazePoint) :
    (addGazePoint hm p).width = hm.width := by
  unfold addGazePoint
  split
  · rfl
  · split
    · rfl
    · rfl

/-- Ingestion never changes the field dimensions. -/
theorem addGazePoint_height (hm : Heatmap) (p : GazePoint) :
    (addGazePoint hm p).height = hm.height := by
  unfold addGazePoint
  split
  · rfl
  · split
    · rfl
    · rfl

/-- Ingestion never changes the visibility flag. -/
theorem addGazePoint_isVisible (hm : Heatmap) (p : GazePoint) :
    (addGazePoint hm p).isVisible = hm.isVisible := by
  unfold addGazePoint
  split
  · rfl
  · split
    · rfl
    · rfl

/-- The squared offset `dx² + dy²` is within `radius²` exactly when the
source's guard `sqrt(dx*dx + dy*dy) <= radius` holds. -/
theorem sqrt_guard_iff (dx dy : ℤ) :
    Real.sqrt ((dx * dx + dy * dy : ℤ) : ℝ) ≤ radius ↔ dx * dx + dy * dy ≤ 900 := by
  have hnn : (0 : ℝ) ≤ ((dx * dx + dy * dy : ℤ) : ℝ) := by
    have h : (0 : ℤ) ≤ dx * dx + dy * dy :=
      add_nonneg (mul_self_nonneg dx) (mul_self_nonneg dy)
    exact_mod_cast h
  rw [radius, Real.sqrt_le_iff]
  constructor
  · rintro ⟨-, h⟩
    have h900 : ((dx * dx + dy * dy : ℤ) : ℝ) ≤ ((900 : ℤ) : ℝ) := by
      calc ((dx * dx + dy * dy : ℤ) : ℝ) ≤ (30 : ℝ) ^ 2 := h
        _ = ((900 : ℤ) : ℝ) := by norm_num
    exact_mod_cast h900
  · intro h
    refine ⟨by norm_num, ?_⟩
    have h900 : ((dx * dx + dy * dy : ℤ) : ℝ) ≤ ((900 : ℤ) : ℝ) := by exact_mod_cast h
    calc ((dx * dx + dy * dy : ℤ) : ℝ) ≤ ((900 : ℤ) : ℝ) := h900
      _ = (30 : ℝ) ^ 2 := by norm_num

/-- The squared norm of the sqrt in the falloff exponent collapses to the
integer squared offset. -/
theorem sqrt_mul_self_offsets (dx dy : ℤ) :
    Real.sqrt ((dx * dx + dy * dy : ℤ) : ℝ) * Real.sqrt ((dx * dx + dy * dy : ℤ) : ℝ) =
      ((dx * dx + dy * dy : ℤ) : ℝ) := by
  apply Real.mul_self_sqrt
  have h : (0 : ℤ) ≤ dx * dx + dy * dy :=
    add_nonneg (mul_self_nonneg dx) (mul_self_nonneg dy)
  exact_mod_cast h

/-- Pointwise description of an accepted ingestion: writing the claim's
kernel formula at every cell within the radius disc, all other cells
unchanged. -/
theorem addGazePoint_data (hm : Heatmap) (p : GazePoint)
    (hconf : ¬ p.confidence < 0.3)
    (hbnd : ¬ (⌊p.x⌋ < 0 ∨ hm.width ≤ ⌊p.x⌋ ∨ ⌊p.y⌋ < 0 ∨ hm.height ≤ ⌊p.y⌋))
    (b a : ℤ) :
    (addGazePoint hm p).data b a =
      if (0 ≤ a ∧ a < hm.width ∧ 0 ≤ b ∧ b < hm.height) ∧
          (a - ⌊p.x⌋) * (a - ⌊p.x⌋) + (b - ⌊p.y⌋) * (b - ⌊p.y⌋) ≤ 900 then
        min maxIntensity (hm.data b a + kernelDelta p.confidence (a - ⌊p.x⌋) (b - ⌊p.y⌋))
      else hm.data b a := by
  have hdata : (addGazePoint hm p).data =
      kernelOffsets.foldl (kernelStep hm.width hm.height ⌊p.x⌋ ⌊p.y⌋ (p.confidence * 2)) hm.data := by
    unfold addGazePoint
    rw [if_neg hconf, if_neg hbnd]
  rw [hdata]
  rw [foldl_kernelStep_apply kernelOffsets nodup_kernelOffsets]
  rw [sqrt_mul_self_offsets (a - ⌊p.x⌋) (b - ⌊p.y⌋)]
  by_cases hcond : (0 ≤ a ∧ a < hm.width ∧ 0 ≤ b ∧ b < hm.height) ∧
      (a - ⌊p.x⌋) * (a - ⌊p.x⌋) + (b - ⌊p.y⌋) * (b - ⌊p.y⌋) ≤ 900
  · have hmem : (a - ⌊p.x⌋, b - ⌊p.y⌋) ∈ kernelOffsets := by
      rw [mem_kernelOffsets]
      dsimp only
      have hs := hcond.2
      have h1 : (a - ⌊p.x⌋) * (a - ⌊p.x⌋) ≤ 900 := by
        nlinarith [mul_self_nonneg (b - ⌊p.y⌋)]
      have h2 : (b - ⌊p.y⌋) * (b - ⌊p.y⌋) ≤ 900 := by
        nlinarith [mul_self_nonneg (a - ⌊p.x⌋)]
      refine ⟨?_, ?_, ?_, ?_⟩
      · nlinarith [mul_self_nonneg (a - ⌊p.x⌋ + 30)]
      · nlinarith [mul_self_nonneg (a - ⌊p.x⌋ - 30)]
      · nlinarith [mul_self_nonneg (b - ⌊p.y⌋ + 30)]
      · nlinarith [mul_self_nonneg (b - ⌊p.y⌋ - 30)]
    rw [if_pos ⟨hmem, hcond.1, (sqrt_guard_iff _ _).mpr hcond.2⟩, if_pos hcond]
    rfl
  · have hnot : ¬ ((a - ⌊p.x⌋, b - ⌊p.y⌋) ∈ kernelOffsets ∧
        (0 ≤ a ∧ a < hm.width ∧ 0 ≤ b ∧ b < hm.height) ∧
        Real.sqrt (((a - ⌊p.x⌋) * (a - ⌊p.x⌋) + (b - ⌊p.y⌋) * (b - ⌊p.y⌋) : ℤ) : ℝ) ≤ radius) := by
      rintro ⟨hmem, hb, hd⟩
      exact hcond ⟨hb, (sqrt_guard_iff _ _).mp hd⟩
    rw [if_neg hnot, if_neg hcond]

/-- The kernel increment is nonnegative for nonnegative confidence. -/
theorem kernelDelta_nonneg (c : ℝ) (hc : 0 ≤ c) (dx dy : ℤ) : 0 ≤ kernelDelta c dx dy := by
  unfold kernelDelta
  have he := (Real.exp_pos (-((dx * dx + dy * dy : ℤ) : ℝ) / (2 * (radius / 3) * (radius / 3)))).le
  exact mul_nonneg (mul_nonneg hc (by norm_num)) he

/-- The kernel increment is strictly positive for positive confidence. -/
theorem kernelDelta_pos (c : ℝ) (hc : 0 < c) (dx dy : ℤ) : 0 < kernelDelta c dx dy := by
  unfold kernelDelta
  have he := Real.exp_pos (-((dx * dx + dy * dy : ℤ) : ℝ) / (2 * (radius / 3) * (radius / 3)))
  exact mul_pos (mul_pos hc (by norm_num)) he

/-- The kernel increment is maximal at the center offset `(0, 0)`. -/
theorem kernelDelta_le_center (c : ℝ) (hc : 0 ≤ c) (dx dy : ℤ) :
    kernelDelta c dx dy ≤ kernelDelta c 0 0 := by
  unfold kernelDelta
  have h0 : (0 : ℝ) ≤ ((dx * dx + dy * dy : ℤ) : ℝ) := by
    have h : (0 : ℤ) ≤ dx * dx + dy * dy :=
      add_nonneg (mul_self_nonneg dx) (mul_self_nonneg dy)
    exact_mod_cast h
  have hD : (0 : ℝ) < 2 * (radius / 3) * (radius / 3) := by rw [radius]; norm_num
  have hle : Real.exp (-((dx * dx + dy * dy : ℤ) : ℝ) / (2 * (radius / 3) * (radius / 3))) ≤ 1 := by
    rw [Real.exp_le_one_iff]
    exact div_nonpos_of_nonpos_of_nonneg (neg_nonpos_of_nonneg h0) hD.le
  have hr : Real.exp (-((0 * 0 + 0 * 0 : ℤ) : ℝ) / (2 * (radius / 3) * (radius / 3))) = 1 := by
    norm_num
  rw [hr]
  exact mul_le_mul_of_nonneg_left hle (by linarith)

/-- Ingestion preserves the saturation bounds of every cell: the new value
is either the old one or a saturating accumulation `min maxIntensity _` of a
nonnegative increment. -/
theorem addGazePoint_preserves_bounds (hm : Heatmap) (p : GazePoint)
    (hinv : ∀ b a, 0 ≤ hm.data b a ∧ hm.data b a ≤ maxIntensity) (b a : ℤ) :
    0 ≤ (addGazePoint hm p).data b a ∧ (addGazePoint hm p).data b a ≤ maxIntensity := by
  by_cases hc : p.confidence < 0.3
  · rw [addGazePoint_low_confidence hm p hc]
    exact hinv b a
  by_cases hb : ⌊p.x⌋ < 0 ∨ hm.width ≤ ⌊p.x⌋ ∨ ⌊p.y⌋ < 0 ∨ hm.height ≤ ⌊p.y⌋
  · rw [addGazePoint_out_of_bounds hm p hb]
    exact hinv b a
  rw [addGazePoint_data hm p hc hb]
  split
  · constructor
    · apply le_min
      · rw [maxIntensity]
        norm_num
      · have hc0 : (0 : ℝ) ≤ p.confidence := by
          push_neg at hc
          linarith
        have hd := kernelDelta_nonneg p.confidence hc0 (a - ⌊p.x⌋) (b - ⌊p.y⌋)
        have h0 := (hinv b a).1
        linarith
    · exact min_le_left _ _
  · exact hinv b a

/-! Lemmas about the running maximum fold used by `render`. -/

/-- The initial accumulator is a lower bound of a max fold. -/
theorem le_foldl_max : ∀ (l : List ℝ) (v : ℝ), v ≤ l.foldl max v
  | [], v => le_refl v
  | x :: l, v => le_trans (le_max_left v x) (le_foldl_max l (max v x))

/-- A max fold is bounded by any common upper bound of the accumulator and
the elements. -/
theorem foldl_max_le : ∀ (l : List ℝ) (v c : ℝ), v ≤ c → (∀ x ∈ l, x ≤ c) → l.foldl max v ≤ c
  | [], _, _, hv, _ => hv
  | x :: l, v, c, hv, h =>
      foldl_max_le l (max v x) c (max_le hv (h x (List.mem_cons_self x l)))
        (fun z hz => h z (List.mem_cons_of_mem x hz))

/-- Every element of the list is bounded by the max fold. -/
theorem mem_le_foldl_max : ∀ (l : List ℝ) (v z : ℝ), z ∈ l → z ≤ l.foldl max v
  | x :: l, v, z, hz => by
      rcases List.mem_cons.mp hz with h | h
      · subst h
        exact le_trans (le_max_right v z) (le_foldl_max l (max v z))
      · exact mem_le_foldl_max l (max v x) z h

/-- The running maximum of `render` is never negative (it starts at 0). -/
theorem maxValue_nonneg (hm : Heatmap) : 0 ≤ maxValue hm :=
  le_foldl_max _ 0

/-- Every in-bounds cell is bounded by the running maximum of `render`. -/
theorem data_le_maxValue (hm : Heatmap) (b a : ℤ) (hb0 : 0 ≤ b) (hbh : b < hm.height)
    (ha0 : 0 ≤ a) (haw : a < hm.width) : hm.data b a ≤ maxValue hm := by
  apply mem_le_foldl_max
  unfold cellList
  rw [List.mem_flatMap]
  refine ⟨b.toNat, by rw [List.mem_range]; omega, ?_⟩
  rw [List.mem_map]
  refine ⟨a.toNat, by rw [List.mem_range]; omega, ?_⟩
  rw [Int.toNat_of_nonneg hb0, Int.toNat_of_nonneg ha0]

/-- On an all-zero field the running maximum is 0. -/
theorem maxValue_eq_zero (hm : Heatmap)
    (h : ∀ b a, 0 ≤ b → b < hm.height → 0 ≤ a → a < hm.width → hm.data b a = 0) :
    maxValue hm = 0 := by
  apply le_antisymm
  · apply foldl_max_le _ _ _ (le_refl 0)
    intro z hz
    unfold cellList at hz
    rw [List.mem_flatMap] at hz
    obtain ⟨y, hy, hz⟩ := hz
    rw [List.mem_map] at hz
    obtain ⟨x, hx, he⟩ := hz
    rw [List.mem_range] at hy hx
    have hz0 : hm.data (y : ℤ) (x : ℤ) = 0 :=
      h _ _ (by omega) (by omega) (by omega) (by omega)
    rw [← he, hz0]
  · exact maxValue_nonneg hm

/-- Rendering while visible composites the normalized, ramp-colored
bitmap. -/
theorem render_eq_of_visible (hm : Heatmap) (hvis : hm.isVisible = true) :
    render hm = some (fun b a =>
      if maxValue hm = 0 then ⟨0, 0, 0, 0⟩
      else if 0 ≤ b ∧ b < hm.height ∧ 0 ≤ a ∧ a < hm.width then
        getHeatmapColor (hm.data b a / maxValue hm)
      else ⟨0, 0, 0, 0⟩) := by
  unfold render
  rw [hvis]
  rw [if_neg (by simp)]

/-! Evaluation lemmas for the color ramp endpoints. -/

/-- Evaluation principle for `round` (half-up flooring). -/
theorem round_eq_of_bounds (x : ℝ) (z : ℤ) (h1 : (z : ℝ) ≤ x + 1 / 2) (h2 : x + 1 / 2 < z + 1) :
    round x = z := by
  rw [round_eq]
  exact Int.floor_eq_iff.mpr ⟨h1, h2⟩

/-- A normalized value of exactly 0 maps to fully transparent. -/
theorem getHeatmapColor_zero : getHeatmapColor 0 = ⟨0, 0, 0, 0⟩ := by
  unfold getHeatmapColor
  rw [if_pos rfl]

/-- The fallback color is the rounded last ramp stop: saturated red with
alpha `round(0.9 * 255) = 230`. -/
theorem fallbackColor_eq : fallbackColor = ⟨255, 0, 0, 230⟩ := by
  unfold fallbackColor colorStops
  simp only [List.getLastD]
  simp only [PixelColor.mk.injEq]
  refine ⟨?_, ?_, ?_, ?_⟩
  · exact round_eq_of_bounds _ 255 (by norm_num) (by norm_num)
  · exact round_eq_of_bounds _ 0 (by norm_num) (by norm_num)
  · exact round_eq_of_bounds _ 0 (by norm_num) (by norm_num)
  · exact round_eq_of_bounds _ 230 (by norm_num) (by norm_num)

/-- A normalized value of exactly 1 (the global maximum cell) maps to the
ramp's most saturated color. -/
theorem getHeatmapColor_one : getHeatmapColor 1 = ⟨255, 0, 0, 230⟩ := by
  unfold getHeatmapColor
  rw [if_neg one_ne_zero]
  unfold colorStops
  rw [findStop, if_neg (by norm_num)]
  rw [findStop, if_neg (by norm_num)]
  rw [findStop, if_neg (by norm_num)]
  rw [findStop, if_neg (by norm_num)]
  rw [findStop, if_pos (by norm_num)]
  unfold interpolateStops
  simp only [PixelColor.mk.injEq]
  refine ⟨?_, ?_, ?_, ?_⟩
  · exact round_eq_of_bounds _ 255 (by norm_num) (by norm_num)
  · exact round_eq_of_bounds _ 0 (by norm_num) (by norm_num)
  · exact round_eq_of_bounds _ 0 (by norm_num) (by norm_num)
  · exact round_eq_of_bounds _ 230 (by norm_num) (by norm_num)

/-! Repeated ingestion of a fixed sample. -/

/-- State after ingesting the same sample `n` times. -/
noncomputable def ingestN (hm : Heatmap) (p : GazePoint) : ℕ → Heatmap
  | 0 => hm
  | n + 1 => addGazePoint (ingestN hm p n) p

/-- Repeated ingestion never changes the width. -/
theorem ingestN_width (hm : Heatmap) (p : GazePoint) :
    ∀ n, (ingestN hm p n).width = hm.width
  | 0 => rfl
  | n + 1 => by
      show (addGazePoint (ingestN hm p n) p).width = hm.width
      rw [addGazePoint_width, ingestN_width hm p n]

/-- Repeated ingestion never changes the height. -/
theorem ingestN_height (hm : Heatmap) (p : GazePoint) :
    ∀ n, (ingestN hm p n).height = hm.height
  | 0 => rfl
  | n + 1 => by
      show (addGazePoint (ingestN hm p n) p).height = hm.height
      rw [addGazePoint_height, ingestN_height hm p n]

/-- A renderer over degenerate (zero or negative) dimensions accepts no
sample: every ingest is a no-op. -/
theorem addGazePoint_degenerate (hm : Heatmap) (p : GazePoint)
    (h : hm.width ≤ 0 ∨ hm.height ≤ 0) : addGazePoint hm p = hm := by
  apply addGazePoint_out_of_bounds
  rcases h with h | h
  · by_cases hx : ⌊p.x⌋ < 0
    · exact Or.inl hx
    · exact Or.inr (Or.inl (by omega))
  · by_cases hy : ⌊p.y⌋ < 0
    · exact Or.inr (Or.inr (Or.inl hy))
    · exact Or.inr (Or.inr (Or.inr (by omega)))

/-! Claim theorems. -/

/-- C5: a sample with confidence below the 0.3 threshold leaves the field
byte-for-byte unchanged (the whole renderer state is returned as is). -/
theorem claim_c5_low_confidence_noop (hm : Heatmap) (p : GazePoint)
    (h : p.confidence < 0.3) : addGazePoint hm p = hm :=
  addGazePoint_low_confidence hm p h

/-- Witness for C5 at a concrete low-confidence sample. -/
theorem claim_c5_low_confidence_noop_witness :
    ((⟨1, 1, 0.1, 0⟩ : GazePoint).confidence < 0.3) ∧
      addGazePoint ⟨3, 3, fun _ _ => 0, true⟩ ⟨1, 1, 0.1, 0⟩ =
        (⟨3, 3, fun _ _ => 0, true⟩ : Heatmap) :=
  ⟨by show (0.1 : ℝ) < 0.3; norm_num,
   claim_c5_low_confidence_noop ⟨3, 3, fun _ _ => 0, true⟩ ⟨1, 1, 0.1, 0⟩
     (by show (0.1 : ℝ) < 0.3; norm_num)⟩

/-- C6 fails as stated: the source gates the position with `Math.floor`, not
`Math.round`.  For the sample `x = 9.5, y = 5` on a 10 × 10 field the
rounded position is 10, outside `[0, 10)`, yet ingestion is not a no-op: the
cell at the floored center `(9, 5)` changes from 0 to 2. -/
theorem claim_c6_counterexample :
    jsRound (9.5 : ℝ) = 10 ∧ ¬ jsRound (9.5 : ℝ) < (10 : ℤ) ∧
      addGazePoint ⟨10, 10, fun _ _ => 0, true⟩ ⟨9.5, 5, 1, 0⟩ ≠
        (⟨10, 10, fun _ _ => 0, true⟩ : Heatmap) := by
  have hround : jsRound (9.5 : ℝ) = 10 := by
    unfold jsRound
    rw [Int.floor_eq_iff]
    constructor
    · norm_num
    · norm_num
  refine ⟨hround, by omega, ?_⟩
  have hfx : ⌊(9.5 : ℝ)⌋ = 9 := by
    rw [Int.floor_eq_iff]
    constructor
    · norm_num
    · norm_num
  have hfy : ⌊(5 : ℝ)⌋ = 5 := by
    rw [Int.floor_eq_iff]
    constructor
    · norm_num
    · norm_num
  have hkd : kernelDelta 1 0 0 = 2 := by
    unfold kernelDelta radius
    norm_num
  have hconf : ¬ (⟨9.5, 5, 1, 0⟩ : GazePoint).confidence < 0.3 := by
    show ¬ (1 : ℝ) < 0.3
    norm_num
  have hbnd : ¬ (⌊(⟨9.5, 5, 1, 0⟩ : GazePoint).x⌋ < 0 ∨
      (⟨10, 10, fun _ _ => 0, true⟩ : Heatmap).width ≤ ⌊(⟨9.5, 5, 1, 0⟩ : GazePoint).x⌋ ∨
      ⌊(⟨9.5, 5, 1, 0⟩ : GazePoint).y⌋ < 0 ∨
      (⟨10, 10, fun _ _ => 0, true⟩ : Heatmap).height ≤ ⌊(⟨9.5, 5, 1, 0⟩ : GazePoint).y⌋) := by
    show ¬ (⌊(9.5 : ℝ)⌋ < 0 ∨ (10 : ℤ) ≤ ⌊(9.5 : ℝ)⌋ ∨ ⌊(5 : ℝ)⌋ < 0 ∨ (10 : ℤ) ≤ ⌊(5 : ℝ)⌋)
    rw [hfx, hfy]
    omega
  have hval : (addGazePoint ⟨10, 10, fun _ _ => 0, true⟩ ⟨9.5, 5, 1, 0⟩).data 5 9 = 2 := by
    rw [addGazePoint_data _ _ hconf hbnd 5 9]
    have hcond : ((0 : ℤ) ≤ 9 ∧ (9 : ℤ) < (⟨10, 10, fun _ _ => 0, true⟩ : Heatmap).width ∧
        (0 : ℤ) ≤ 5 ∧ (5 : ℤ) < (⟨10, 10, fun _ _ => 0, true⟩ : Heatmap).height) ∧
        ((9 : ℤ) - ⌊(⟨9.5, 5, 1, 0⟩ : GazePoint).x⌋) * (9 - ⌊(⟨9.5, 5, 1, 0⟩ : GazePoint).x⌋) +
          ((5 : ℤ) - ⌊(⟨9.5, 5, 1, 0⟩ : GazePoint).y⌋) * (5 - ⌊(⟨9.5, 5, 1, 0⟩ : GazePoint).y⌋) ≤
            900 := by
      show ((0 : ℤ) ≤ 9 ∧ (9 : ℤ) < 10 ∧ (0 : ℤ) ≤ 5 ∧ (5 : ℤ) < 10) ∧
        ((9 : ℤ) - ⌊(9.5 : ℝ)⌋) * (9 - ⌊(9.5 : ℝ)⌋) +
          ((5 : ℤ) - ⌊(5 : ℝ)⌋) * (5 - ⌊(5 : ℝ)⌋) ≤ 900
      rw [hfx, hfy]
      omega
    rw [if_pos hcond]
    show min maxIntensity ((0 : ℝ) +
        kernelDelta (1 : ℝ) (9 - ⌊(9.5 : ℝ)⌋) (5 - ⌊(5 : ℝ)⌋)) = 2
    rw [hfx, hfy]
    norm_num [hkd, maxIntensity]
  intro heq
  have h0 : (addGazePoint ⟨10, 10, fun _ _ => 0, true⟩ ⟨9.5, 5, 1, 0⟩).data 5 9 =
      (⟨10, 10, fun _ _ => 0, true⟩ : Heatmap).data 5 9 := by rw [heq]
  rw [hval] at h0
  have h2 : (2 : ℝ) = 0 := h0
  norm_num at h2

/-- C6 (amended): the source floors the sample position; whenever the
floored integer position falls outside `[0, width) × [0, height)`, ingest is
a no-op. -/
theorem claim_c6_floor_gate (hm : Heatmap) (p : GazePoint)
    (h : ⌊p.x⌋ < 0 ∨ hm.width ≤ ⌊p.x⌋ ∨ ⌊p.y⌋ < 0 ∨ hm.height ≤ ⌊p.y⌋) :
    addGazePoint hm p = hm :=
  addGazePoint_out_of_bounds hm p h

/-- Witness for the amended C6 at a concrete out-of-bounds sample. -/
theorem claim_c6_floor_gate_witness :
    (⌊(⟨-1, 0, 1, 0⟩ : GazePoint).x⌋ < 0 ∨
      (⟨10, 10, fun _ _ => 0, true⟩ : Heatmap).width ≤ ⌊(⟨-1, 0, 1, 0⟩ : GazePoint).x⌋ ∨
      ⌊(⟨-1, 0, 1, 0⟩ : GazePoint).y⌋ < 0 ∨
      (⟨10, 10, fun _ _ => 0, true⟩ : Heatmap).height ≤ ⌊(⟨-1, 0, 1, 0⟩ : GazePoint).y⌋) ∧
    addGazePoint ⟨10, 10, fun _ _ => 0, true⟩ ⟨-1, 0, 1, 0⟩ =
      (⟨10, 10, fun _ _ => 0, true⟩ : Heatmap) := by
  have hfx : ⌊((-1) : ℝ)⌋ < (0 : ℤ) := by
    have h : ⌊((-1) : ℝ)⌋ = -1 := by
      rw [Int.floor_eq_iff]
      constructor
      · norm_num
      · norm_num
    omega
  exact ⟨Or.inl hfx, claim_c6_floor_gate _ _ (Or.inl hfx)⟩

/-- C7 fails as stated: constructing over a 0 × 0 canvas (with a working 2D
context) does not fail fast; construction succeeds and silently proceeds
with an empty field. -/
theorem claim_c7_counterexample :
    construct (some ⟨0, 0, true⟩) =
      Except.ok { width := 0, height := 0, data := fun _ _ => 0, isVisible := true } := rfl

/-- C7 (amended): the source performs no dimension validation: construction
over zero or negative width/height succeeds (throwing only for a missing
canvas or 2D context), and the resulting renderer is inert: every cell is 0
and every ingest is a no-op; likewise a resize to degenerate dimensions
silently yields an inert renderer. -/
theorem claim_c7_no_dimension_validation (c : Canvas) (hctx : c.ctxAvailable = true)
    (hdeg : c.width ≤ 0 ∨ c.height ≤ 0) :
    ∃ hm, construct (some c) = Except.ok hm ∧
      (∀ b a, hm.data b a = 0) ∧
      (∀ p, addGazePoint hm p = hm) ∧
      (∀ (hm2 : Heatmap) (w h : ℤ) (p : GazePoint), w ≤ 0 ∨ h ≤ 0 →
        addGazePoint (resize hm2 w h) p = resize hm2 w h) := by
  refine ⟨{ width := c.width, height := c.height, data := fun _ _ => 0, isVisible := true },
    ?_, fun b a => rfl, ?_, ?_⟩
  · simp only [construct, hctx, Bool.true_eq_false, if_false]
  · intro p
    exact addGazePoint_degenerate _ p hdeg
  · intro hm2 w h p hwh
    exact addGazePoint_degenerate _ p hwh

/-- Witness for the amended C7 at a concrete degenerate canvas. -/
theorem claim_c7_no_dimension_validation_witness :
    ((⟨0, 5, true⟩ : Canvas).ctxAvailable = true) ∧
    ((⟨0, 5, true⟩ : Canvas).width ≤ 0 ∨ (⟨0, 5, true⟩ : Canvas).height ≤ 0) ∧
    (∃ hm, construct (some ⟨0, 5, true⟩) = Except.ok hm ∧
      (∀ b a, hm.data b a = 0) ∧
      (∀ p, addGazePoint hm p = hm) ∧
      (∀ (hm2 : Heatmap) (w h : ℤ) (p : GazePoint), w ≤ 0 ∨ h ≤ 0 →
        addGazePoint (resize hm2 w h) p = resize hm2 w h)) :=
  ⟨rfl, Or.inl (by show (0 : ℤ) ≤ 0; omega),
   claim_c7_no_dimension_validation ⟨0, 5, true⟩ rfl (Or.inl (by show (0 : ℤ) ≤ 0; omega))⟩

/-- C10: every write of `addGazePoint` is bounds-checked: any cell outside
`[0, width) × [0, height)` is untouched by ingestion, so splatting near the
field edge never writes out of bounds. -/
theorem claim_c10_bounds_checked_writes (hm : Heatmap) (p : GazePoint) (b a : ℤ)
    (h : ¬ (0 ≤ a ∧ a < hm.width ∧ 0 ≤ b ∧ b < hm.height)) :
    (addGazePoint hm p).data b a = hm.data b a := by
  by_cases hc : p.confidence < 0.3
  · rw [addGazePoint_low_confidence hm p hc]
  by_cases hb : ⌊p.x⌋ < 0 ∨ hm.width ≤ ⌊p.x⌋ ∨ ⌊p.y⌋ < 0 ∨ hm.height ≤ ⌊p.y⌋
  · rw [addGazePoint_out_of_bounds hm p hb]
  rw [addGazePoint_data hm p hc hb b a, if_neg (fun hcond => h hcond.1)]

/-- Witness for C10 at a concrete out-of-bounds cell: a sample at the field
edge does not write to the cell just outside the field. -/
theorem claim_c10_bounds_checked_writes_witness :
    (¬ ((0 : ℤ) ≤ 10 ∧ (10 : ℤ) < (⟨10, 10, fun _ _ => 0, true⟩ : Heatmap).width ∧
        (0 : ℤ) ≤ 5 ∧ (5 : ℤ) < (⟨10, 10, fun _ _ => 0, true⟩ : Heatmap).height)) ∧
    (addGazePoint ⟨10, 10, fun _ _ => 0, true⟩ ⟨9, 5, 1, 0⟩).data 5 10 =
      (⟨10, 10, fun _ _ => 0, true⟩ : Heatmap).data 5 10 := by
  have h : ¬ ((0 : ℤ) ≤ 10 ∧ (10 : ℤ) < (10 : ℤ) ∧ (0 : ℤ) ≤ 5 ∧ (5 : ℤ) < (10 : ℤ)) := by omega
  exact ⟨h, claim_c10_bounds_checked_writes ⟨10, 10, fun _ _ => 0, true⟩ ⟨9, 5, 1, 0⟩ 5 10 h⟩

/-- Any operation sequence preserves the per-cell saturation bounds. -/
theorem runOps_preserves_bounds (ops : List HOp) :
    ∀ hm : Heatmap, (∀ b a, 0 ≤ hm.data b a ∧ hm.data b a ≤ maxIntensity) →
      ∀ b a, 0 ≤ (runOps hm ops).data b a ∧ (runOps hm ops).data b a ≤ maxIntensity := by
  induction ops with
  | nil => exact fun hm hinv => hinv
  | cons op ops ih =>
    intro hm hinv
    show ∀ b a, 0 ≤ (runOps (applyOp hm op) ops).data b a ∧
      (runOps (applyOp hm op) ops).data b a ≤ maxIntensity
    apply ih
    cases op with
    | ingest p => exact addGazePoint_preserves_bounds hm p hinv
    | doClear =>
        intro b a
        exact ⟨le_refl 0, by show (0 : ℝ) ≤ maxIntensity; rw [maxIntensity]; norm_num⟩
    | doResize w h =>
        intro b a
        exact ⟨le_refl 0, by show (0 : ℝ) ≤ maxIntensity; rw [maxIntensity]; norm_num⟩
    | renderTick => exact hinv

/-- C1: starting from construction, after any sequence of ingest / clear /
resize / render operations, every cell of the field lies in
`[0, maxIntensity]`. -/
theorem claim_c1_saturation_invariant (c : Canvas) (hm₀ : Heatmap)
    (hc : construct (some c) = Except.ok hm₀) (ops : List HOp) (b a : ℤ) :
    0 ≤ (runOps hm₀ ops).data b a ∧ (runOps hm₀ ops).data b a ≤ maxIntensity := by
  have hdata : ∀ b a, hm₀.data b a = 0 := by
    cases hctx : c.ctxAvailable with
    | false => simp [construct, hctx] at hc
    | true =>
        simp only [construct, hctx, Bool.true_eq_false, if_false, Except.ok.injEq] at hc
        intro b a
        rw [← hc]
  apply runOps_preserves_bounds ops hm₀
  intro b2 a2
  rw [hdata b2 a2]
  exact ⟨le_refl 0, by show (0 : ℝ) ≤ maxIntensity; rw [maxIntensity]; norm_num⟩

/-- Witness for C1 over a concrete construction and operation sequence. -/
theorem claim_c1_saturation_invariant_witness :
    construct (some ⟨4, 4, true⟩) = Except.ok ⟨4, 4, fun _ _ => 0, true⟩ ∧
    (0 ≤ (runOps ⟨4, 4, fun _ _ => 0, true⟩ [HOp.doClear, HOp.renderTick]).data 1 2 ∧
      (runOps ⟨4, 4, fun _ _ => 0, true⟩ [HOp.doClear, HOp.renderTick]).data 1 2 ≤ maxIntensity) :=
  ⟨rfl, claim_c1_saturation_invariant ⟨4, 4, true⟩ ⟨4, 4, fun _ _ => 0, true⟩ rfl
    [HOp.doClear, HOp.renderTick] 1 2⟩

/-- C8: `clear` zeroes every cell, keeps the dimensions, is idempotent, and
a render immediately afterwards composites a fully transparent bitmap. -/
theorem claim_c8_clear (hm : Heatmap) :
    (∀ b a, (clear hm).data b a = 0) ∧
    (clear hm).width = hm.width ∧ (clear hm).height = hm.height ∧
    clear (clear hm) = clear hm ∧
    (hm.isVisible = true → render (clear hm) = some (fun _ _ => ⟨0, 0, 0, 0⟩)) := by
  refine ⟨fun b a => rfl, rfl, rfl, rfl, ?_⟩
  intro hvis
  have hmax : maxValue (clear hm) = 0 :=
    maxValue_eq_zero (clear hm) (fun _ _ _ _ _ _ => rfl)
  rw [render_eq_of_visible (clear hm) hvis]
  refine congrArg some (funext fun b => funext fun a => ?_)
  rw [hmax, if_pos rfl]

/-- Witness for C8 at a concrete renderer state. -/
theorem claim_c8_clear_witness :
    ((clear ⟨2, 2, fun _ _ => 7, true⟩).data 0 1 = 0) ∧
    ((⟨2, 2, fun _ _ => 7, true⟩ : Heatmap).isVisible = true) ∧
    render (clear ⟨2, 2, fun _ _ => 7, true⟩) = some (fun _ _ => ⟨0, 0, 0, 0⟩) :=
  ⟨(claim_c8_clear ⟨2, 2, fun _ _ => 7, true⟩).1 0 1, rfl,
   (claim_c8_clear ⟨2, 2, fun _ _ => 7, true⟩).2.2.2.2 rfl⟩

/-- C9: on an all-zero field (freshly constructed or just cleared) the
normalization maximum is 0, so a visible render takes the early-return
branch: it composites a fully transparent bitmap, performs no division by
zero, and (render being a read-only function of the state in this model)
never mutates the field. -/
theorem claim_c9_render_empty_field (hm : Heatmap)
    (hz : ∀ b a, 0 ≤ b → b < hm.height → 0 ≤ a → a < hm.width → hm.data b a = 0) :
    maxValue hm = 0 ∧
    (hm.isVisible = true → render hm = some (fun _ _ => ⟨0, 0, 0, 0⟩)) := by
  have hmax : maxValue hm = 0 := maxValue_eq_zero hm hz
  refine ⟨hmax, ?_⟩
  intro hvis
  rw [render_eq_of_visible hm hvis]
  refine congrArg some (funext fun b => funext fun a => ?_)
  rw [hmax, if_pos rfl]

/-- Witness for C9 on a concrete freshly constructed (all-zero) field. -/
theorem claim_c9_render_empty_field_witness :
    maxValue ⟨6, 4, fun _ _ => 0, true⟩ = 0 ∧
    render ⟨6, 4, fun _ _ => 0, true⟩ = some (fun _ _ => ⟨0, 0, 0, 0⟩) :=
  ⟨(claim_c9_render_empty_field ⟨6, 4, fun _ _ => 0, true⟩ (fun _ _ _ _ _ _ => rfl)).1,
   (claim_c9_render_empty_field ⟨6, 4, fun _ _ => 0, true⟩ (fun _ _ _ _ _ _ => rfl)).2 rfl⟩

/-- C2: for an accepted sample (confidence at or above threshold, floored
position in-bounds), ingestion (1) sets every in-bounds cell whose integer
offset `(dx, dy)` from the center satisfies `dx² + dy² ≤ 30²` (boundary
included) to `min(maxIntensity, cell + kernelDelta)`, (2) leaves every cell
with `dx² + dy² > 30²` unchanged, (3) where `kernelDelta` is
`confidence · 2 · exp(-distance² / (2·(R/3)²))` with
`distance = sqrt(dx² + dy²)`, and (4) the center cell receives the largest
delta. -/
theorem claim_c2_kernel_splat (hm : Heatmap) (p : GazePoint)
    (hconf : 0.3 ≤ p.confidence)
    (hx0 : 0 ≤ ⌊p.x⌋) (hxw : ⌊p.x⌋ < hm.width)
    (hy0 : 0 ≤ ⌊p.y⌋) (hyh : ⌊p.y⌋ < hm.height) :
    (∀ b a, 0 ≤ a → a < hm.width → 0 ≤ b → b < hm.height →
        (a - ⌊p.x⌋) * (a - ⌊p.x⌋) + (b - ⌊p.y⌋) * (b - ⌊p.y⌋) ≤ 30 * 30 →
        (addGazePoint hm p).data b a =
          min maxIntensity
            (hm.data b a + kernelDelta p.confidence (a - ⌊p.x⌋) (b - ⌊p.y⌋))) ∧
    (∀ b a, 30 * 30 < (a - ⌊p.x⌋) * (a - ⌊p.x⌋) + (b - ⌊p.y⌋) * (b - ⌊p.y⌋) →
        (addGazePoint hm p).data b a = hm.data b a) ∧
    (∀ dx dy, kernelDelta p.confidence dx dy = p.confidence * 2 *
        Real.exp (-(Real.sqrt ((dx * dx + dy * dy : ℤ) : ℝ) *
            Real.sqrt ((dx * dx + dy * dy : ℤ) : ℝ)) / (2 * (radius / 3) * (radius / 3)))) ∧
    (∀ dx dy, kernelDelta p.confidence dx dy ≤ kernelDelta p.confidence 0 0) := by
  have hconf' : ¬ p.confidence < 0.3 := not_lt.mpr hconf
  have hbnd : ¬ (⌊p.x⌋ < 0 ∨ hm.width ≤ ⌊p.x⌋ ∨ ⌊p.y⌋ < 0 ∨ hm.height ≤ ⌊p.y⌋) := by
    push_neg
    exact ⟨hx0, hxw, hy0, hyh⟩
  refine ⟨?_, ?_, ?_, ?_⟩
  · intro b a ha0 haw hb0 hbh hdisc
    rw [addGazePoint_data hm p hconf' hbnd b a,
      if_pos ⟨⟨ha0, haw, hb0, hbh⟩, by linarith⟩]
  · intro b a hdisc
    rw [addGazePoint_data hm p hconf' hbnd b a, if_neg ?_]
    rintro ⟨-, hle⟩
    linarith
  · intro dx dy
    rw [sqrt_mul_self_offsets dx dy]
    rfl
  · intro dx dy
    exact kernelDelta_le_center p.confidence (by linarith) dx dy

/-- Witness for C2 at a concrete accepted sample in the middle of a
200 × 200 field: the center cell obeys the saturating update formula. -/
theorem claim_c2_kernel_splat_witness :
    (0.3 ≤ (⟨100, 100, 1, 0⟩ : GazePoint).confidence) ∧
    (0 ≤ ⌊(⟨100, 100, 1, 0⟩ : GazePoint).x⌋) ∧
    (⌊(⟨100, 100, 1, 0⟩ : GazePoint).x⌋ < (⟨200, 200, fun _ _ => 0, true⟩ : Heatmap).width) ∧
    (addGazePoint ⟨200, 200, fun _ _ => 0, true⟩ ⟨100, 100, 1, 0⟩).data 100 100 =
      min maxIntensity ((⟨200, 200, fun _ _ => 0, true⟩ : Heatmap).data 100 100 +
        kernelDelta (⟨100, 100, 1, 0⟩ : GazePoint).confidence
          (100 - ⌊(⟨100, 100, 1, 0⟩ : GazePoint).x⌋)
          (100 - ⌊(⟨100, 100, 1, 0⟩ : GazePoint).y⌋)) := by
  have hf : ⌊(100 : ℝ)⌋ = (100 : ℤ) := by
    rw [Int.floor_eq_iff]
    constructor
    · norm_num
    · norm_num
  have hx0 : (0 : ℤ) ≤ ⌊(⟨100, 100, 1, 0⟩ : GazePoint).x⌋ := by
    show (0 : ℤ) ≤ ⌊(100 : ℝ)⌋
    rw [hf]
    omega
  have hxw : ⌊(⟨100, 100, 1, 0⟩ : GazePoint).x⌋ <
      (⟨200, 200, fun _ _ => 0, true⟩ : Heatmap).width := by
    show ⌊(100 : ℝ)⌋ < (200 : ℤ)
    rw [hf]
    omega
  have hconf : (0.3 : ℝ) ≤ (⟨100, 100, 1, 0⟩ : GazePoint).confidence := by
    show (0.3 : ℝ) ≤ 1
    norm_num
  refine ⟨hconf, hx0, hxw, ?_⟩
  refine (claim_c2_kernel_splat ⟨200, 200, fun _ _ => 0, true⟩ ⟨100, 100, 1, 0⟩
    hconf hx0 hxw hx0 hxw).1 100 100 ?_ ?_ ?_ ?_ ?_
  · omega
  · show (100 : ℤ) < 200
    omega
  · omega
  · show (100 : ℤ) < 200
    omega
  · show (100 - ⌊(100 : ℝ)⌋) * (100 - ⌊(100 : ℝ)⌋) +
      (100 - ⌊(100 : ℝ)⌋) * (100 - ⌊(100 : ℝ)⌋) ≤ 30 * 30
    rw [hf]
    omega

/-- C3: ingesting a fixed accepted sample `n` times produces, at each
affected cell, a monotonically non-decreasing sequence of values, bounded by
`maxIntensity`, that converges to `maxIntensity` as `n → ∞` (it in fact
reaches `maxIntensity` after finitely many ingestions). -/
theorem claim_c3_repeat_saturates (hm : Heatmap) (p : GazePoint)
    (hconf : 0.3 ≤ p.confidence)
    (hx0 : 0 ≤ ⌊p.x⌋) (hxw : ⌊p.x⌋ < hm.width)
    (hy0 : 0 ≤ ⌊p.y⌋) (hyh : ⌊p.y⌋ < hm.height)
    (b a : ℤ)
    (ha0 : 0 ≤ a) (haw : a < hm.width) (hb0 : 0 ≤ b) (hbh : b < hm.height)
    (hdisc : (a - ⌊p.x⌋) * (a - ⌊p.x⌋) + (b - ⌊p.y⌋) * (b - ⌊p.y⌋) ≤ 30 * 30)
    (hcell0 : 0 ≤ hm.data b a) (hcell1 : hm.data b a ≤ maxIntensity) :
    Monotone (fun n => (ingestN hm p n).data b a) ∧
    (∀ n, (ingestN hm p n).data b a ≤ maxIntensity) ∧
    Filter.Tendsto (fun n => (ingestN hm p n).data b a) Filter.atTop (nhds maxIntensity) := by
  have hconf' : ¬ p.confidence < 0.3 := not_lt.mpr hconf
  have hpos : 0 < p.confidence := lt_of_lt_of_le (by norm_num) hconf
  have hδ : 0 < kernelDelta p.confidence (a - ⌊p.x⌋) (b - ⌊p.y⌋) :=
    kernelDelta_pos p.confidence hpos _ _
  have hmaxI : (0 : ℝ) < maxIntensity := by rw [maxIntensity]; norm_num
  have hstep : ∀ n : ℕ, (ingestN hm p (n + 1)).data b a =
      min maxIntensity ((ingestN hm p n).data b a +
        kernelDelta p.confidence (a - ⌊p.x⌋) (b - ⌊p.y⌋)) := by
    intro n
    have hbnd : ¬ (⌊p.x⌋ < 0 ∨ (ingestN hm p n).width ≤ ⌊p.x⌋ ∨ ⌊p.y⌋ < 0 ∨
        (ingestN hm p n).height ≤ ⌊p.y⌋) := by
      rw [ingestN_width, ingestN_height]
      push_neg
      exact ⟨hx0, hxw, hy0, hyh⟩
    have hcond : ((0 : ℤ) ≤ a ∧ a < (ingestN hm p n).width ∧ 0 ≤ b ∧
        b < (ingestN hm p n).height) ∧
        (a - ⌊p.x⌋) * (a - ⌊p.x⌋) + (b - ⌊p.y⌋) * (b - ⌊p.y⌋) ≤ 900 := by
      refine ⟨⟨ha0, ?_, hb0, ?_⟩, by linarith⟩
      · rw [ingestN_width]
        exact haw
      · rw [ingestN_height]
        exact hbh
    show (addGazePoint (ingestN hm p n) p).data b a = _
    rw [addGazePoint_data (ingestN hm p n) p hconf' hbnd b a, if_pos hcond]
  have hub : ∀ n : ℕ, (ingestN hm p n).data b a ≤ maxIntensity := by
    intro n
    cases n with
    | zero => exact hcell1
    | succ n =>
        rw [hstep n]
        exact min_le_left _ _
  have hlb : ∀ n : ℕ, 0 ≤ (ingestN hm p n).data b a := by
    intro n
    induction n with
    | zero => exact hcell0
    | succ n ih =>
        rw [hstep n]
        exact le_min hmaxI.le (add_nonneg ih hδ.le)
  have hmono : Monotone (fun n => (ingestN hm p n).data b a) := by
    apply monotone_nat_of_le_succ
    intro n
    show (ingestN hm p n).data b a ≤ (ingestN hm p (n + 1)).data b a
    rw [hstep n]
    exact le_min (hub n) (le_add_of_nonneg_right hδ.le)
  have hkey : ∀ n : ℕ, min maxIntensity (hm.data b a +
      (n : ℝ) * kernelDelta p.confidence (a - ⌊p.x⌋) (b - ⌊p.y⌋)) ≤
      (ingestN hm p n).data b a := by
    intro n
    induction n with
    | zero =>
        show min maxIntensity (hm.data b a + ((0 : ℕ) : ℝ) * _) ≤ hm.data b a
        rw [Nat.cast_zero, zero_mul, add_zero]
        exact min_le_right _ _
    | succ n ih =>
        rw [hstep n]
        refine le_min (min_le_left _ _) ?_
        rcases le_total (hm.data b a +
            (n : ℝ) * kernelDelta p.confidence (a - ⌊p.x⌋) (b - ⌊p.y⌋)) maxIntensity with h | h
        · rw [min_eq_right h] at ih
          have he : hm.data b a +
              ((n + 1 : ℕ) : ℝ) * kernelDelta p.confidence (a - ⌊p.x⌋) (b - ⌊p.y⌋) =
              (hm.data b a + (n : ℝ) * kernelDelta p.confidence (a - ⌊p.x⌋) (b - ⌊p.y⌋)) +
                kernelDelta p.confidence (a - ⌊p.x⌋) (b - ⌊p.y⌋) := by
            push_cast
            ring
          rw [he]
          have hc := min_le_right maxIntensity
            ((hm.data b a + (n : ℝ) * kernelDelta p.confidence (a - ⌊p.x⌋) (b - ⌊p.y⌋)) +
              kernelDelta p.confidence (a - ⌊p.x⌋) (b - ⌊p.y⌋))
          linarith
        · rw [min_eq_left h] at ih
          have := min_le_left maxIntensity (hm.data b a +
            ((n + 1 : ℕ) : ℝ) * kernelDelta p.confidence (a - ⌊p.x⌋) (b - ⌊p.y⌋))
          linarith
  have hreach : ∀ n : ℕ, ⌈maxIntensity / kernelDelta p.confidence (a - ⌊p.x⌋) (b - ⌊p.y⌋)⌉₊ ≤ n →
      (ingestN hm p n).data b a = maxIntensity := by
    intro n hn
    have h2 : maxIntensity / kernelDelta p.confidence (a - ⌊p.x⌋) (b - ⌊p.y⌋) ≤
        (⌈maxIntensity / kernelDelta p.confidence (a - ⌊p.x⌋) (b - ⌊p.y⌋)⌉₊ : ℝ) :=
      Nat.le_ceil _
    have h3 : ((⌈maxIntensity / kernelDelta p.confidence (a - ⌊p.x⌋) (b - ⌊p.y⌋)⌉₊ : ℕ) : ℝ) ≤
        (n : ℝ) := by
      exact_mod_cast hn
    have h4 : maxIntensity / kernelDelta p.confidence (a - ⌊p.x⌋) (b - ⌊p.y⌋) *
          kernelDelta p.confidence (a - ⌊p.x⌋) (b - ⌊p.y⌋) ≤
        (n : ℝ) * kernelDelta p.confidence (a - ⌊p.x⌋) (b - ⌊p.y⌋) :=
      mul_le_mul_of_nonneg_right (le_trans h2 h3) hδ.le
    rw [div_mul_cancel₀ _ (ne_of_gt hδ)] at h4
    have h5 : maxIntensity ≤ hm.data b a +
        (n : ℝ) * kernelDelta p.confidence (a - ⌊p.x⌋) (b - ⌊p.y⌋) := by linarith
    have h6 := hkey n
    rw [min_eq_left h5] at h6
    exact le_antisymm (hub n) h6
  refine ⟨hmono, hub, ?_⟩
  have hev : ∀ᶠ n in Filter.atTop,
      (fun _ : ℕ => maxIntensity) n = (ingestN hm p n).data b a :=
    Filter.eventually_atTop.mpr
      ⟨⌈maxIntensity / kernelDelta p.confidence (a - ⌊p.x⌋) (b - ⌊p.y⌋)⌉₊,
        fun n hn => (hreach n hn).symm⟩
  exact Filter.Tendsto.congr' hev tendsto_const_nhds

/-- Witness for C3 at a concrete sample and its center cell on a 64 × 64
all-zero field. -/
theorem claim_c3_repeat_saturates_witness :
    (0.3 ≤ (⟨32, 32, 1, 0⟩ : GazePoint).confidence) ∧
    Monotone (fun n => (ingestN ⟨64, 64, fun _ _ => 0, true⟩ ⟨32, 32, 1, 0⟩ n).data 32 32) ∧
    Filter.Tendsto (fun n => (ingestN ⟨64, 64, fun _ _ => 0, true⟩ ⟨32, 32, 1, 0⟩ n).data 32 32)
      Filter.atTop (nhds maxIntensity) := by
  have hf : ⌊(32 : ℝ)⌋ = (32 : ℤ) := by
    rw [Int.floor_eq_iff]
    constructor
    · norm_num
    · norm_num
  have hconf : (0.3 : ℝ) ≤ (⟨32, 32, 1, 0⟩ : GazePoint).confidence := by
    show (0.3 : ℝ) ≤ 1
    norm_num
  have hx0 : (0 : ℤ) ≤ ⌊(⟨32, 32, 1, 0⟩ : GazePoint).x⌋ := by
    show (0 : ℤ) ≤ ⌊(32 : ℝ)⌋
    rw [hf]
    omega
  have hxw : ⌊(⟨32, 32, 1, 0⟩ : GazePoint).x⌋ <
      (⟨64, 64, fun _ _ => 0, true⟩ : Heatmap).width := by
    show ⌊(32 : ℝ)⌋ < (64 : ℤ)
    rw [hf]
    omega
  have hdisc : ((32 : ℤ) - ⌊(⟨32, 32, 1, 0⟩ : GazePoint).x⌋) *
      (32 - ⌊(⟨32, 32, 1, 0⟩ : GazePoint).x⌋) +
      ((32 : ℤ) - ⌊(⟨32, 32, 1, 0⟩ : GazePoint).y⌋) *
        (32 - ⌊(⟨32, 32, 1, 0⟩ : GazePoint).y⌋) ≤ 30 * 30 := by
    show ((32 : ℤ) - ⌊(32 : ℝ)⌋) * (32 - ⌊(32 : ℝ)⌋) +
      ((32 : ℤ) - ⌊(32 : ℝ)⌋) * (32 - ⌊(32 : ℝ)⌋) ≤ 30 * 30
    rw [hf]
    omega
  have hres := claim_c3_repeat_saturates ⟨64, 64, fun _ _ => 0, true⟩ ⟨32, 32, 1, 0⟩
    hconf hx0 hxw hx0 hxw 32 32 (by omega) (by show (32 : ℤ) < 64; omega) (by omega)
    (by show (32 : ℤ) < 64; omega) hdisc (le_refl 0)
    (by show (0 : ℝ) ≤ maxIntensity; rw [maxIntensity]; norm_num)
  exact ⟨hconf, hres.1, hres.2.2⟩

/-- C4: whenever the field maximum is positive, a visible render colors
every in-bounds cell by `getHeatmapColor (cell / maxValue)` (the ramp's
bracket search with per-channel linear interpolation); the normalized value
never leaves the ramp's `[0, 1]` domain, a normalized value of exactly 0 is
fully transparent, and every cell equal to the global maximum receives the
ramp's most saturated color. -/
theorem claim_c4_render_normalized_ramp (hm : Heatmap)
    (hvis : hm.isVisible = true)
    (hpos : 0 < maxValue hm)
    (hnn : ∀ b a, 0 ≤ hm.data b a) :
    ∃ bitmap, render hm = some bitmap ∧
      (∀ b a, 0 ≤ b → b < hm.height → 0 ≤ a → a < hm.width →
        bitmap b a = getHeatmapColor (hm.data b a / maxValue hm) ∧
        0 ≤ hm.data b a / maxValue hm ∧ hm.data b a / maxValue hm ≤ 1 ∧
        (hm.data b a = maxValue hm → bitmap b a = fallbackColor)) ∧
      getHeatmapColor 0 = ⟨0, 0, 0, 0⟩ ∧
      fallbackColor = ⟨255, 0, 0, 230⟩ := by
  refine ⟨_, render_eq_of_visible hm hvis, ?_, getHeatmapColor_zero, fallbackColor_eq⟩
  intro b a hb0 hbh ha0 haw
  have hne : maxValue hm ≠ 0 := ne_of_gt hpos
  have hcolor : (if maxValue hm = 0 then (⟨0, 0, 0, 0⟩ : PixelColor)
      else if 0 ≤ b ∧ b < hm.height ∧ 0 ≤ a ∧ a < hm.width then
        getHeatmapColor (hm.data b a / maxValue hm)
      else ⟨0, 0, 0, 0⟩) = getHeatmapColor (hm.data b a / maxValue hm) := by
    rw [if_neg hne, if_pos ⟨hb0, hbh, ha0, haw⟩]
  refine ⟨hcolor, div_nonneg (hnn b a) hpos.le, ?_, ?_⟩
  · rw [div_le_one hpos]
    exact data_le_maxValue hm b a hb0 hbh ha0 haw
  · intro hmax
    rw [hcolor, hmax, div_self hne, getHeatmapColor_one, fallbackColor_eq]

/-- Witness for C4 on a concrete 1 × 1 field holding the value 50: the
single cell is the maximum and renders as the most saturated ramp color. -/
theorem claim_c4_render_normalized_ramp_witness :
    ((⟨1, 1, fun _ _ => 50, true⟩ : Heatmap).isVisible = true) ∧
    (0 < maxValue ⟨1, 1, fun _ _ => 50, true⟩) ∧
    (∃ bitmap, render ⟨1, 1, fun _ _ => 50, true⟩ = some bitmap ∧
      (∀ b a, 0 ≤ b → b < (⟨1, 1, fun _ _ => 50, true⟩ : Heatmap).height →
        0 ≤ a → a < (⟨1, 1, fun _ _ => 50, true⟩ : Heatmap).width →
        bitmap b a = getHeatmapColor ((⟨1, 1, fun _ _ => 50, true⟩ : Heatmap).data b a /
          maxValue ⟨1, 1, fun _ _ => 50, true⟩) ∧
        0 ≤ (⟨1, 1, fun _ _ => 50, true⟩ : Heatmap).data b a /
          maxValue ⟨1, 1, fun _ _ => 50, true⟩ ∧
        (⟨1, 1, fun _ _ => 50, true⟩ : Heatmap).data b a /
          maxValue ⟨1, 1, fun _ _ => 50, true⟩ ≤ 1 ∧
        ((⟨1, 1, fun _ _ => 50, true⟩ : Heatmap).data b a =
            maxValue ⟨1, 1, fun _ _ => 50, true⟩ →
          bitmap b a = fallbackColor)) ∧
      getHeatmapColor 0 = ⟨0, 0, 0, 0⟩ ∧
      fallbackColor = ⟨255, 0, 0, 230⟩) := by
  have hmax : maxValue ⟨1, 1, fun _ _ => 50, true⟩ = 50 := by
    show ((List.range (1 : ℤ).toNat).flatMap
      (fun (y : ℕ) => (List.range (1 : ℤ).toNat).map
        (fun (x : ℕ) => (50 : ℝ)))).foldl max 0 = 50
    norm_num [List.range_succ, max_def]
  have hpos : 0 < maxValue ⟨1, 1, fun _ _ => 50, true⟩ := by
    rw [hmax]
    norm_num
  exact ⟨rfl, hpos,
    claim_c4_render_normalized_ramp ⟨1, 1, fun _ _ => 50, true⟩ rfl hpos
      (fun _ _ => by norm_num)⟩

end Eyemob
